import Mathlib

/-!
Verification of the Area/Project Catalog Store of `src/app.py`
(Idados-SPDO/app-repositorio-v2).

The application is a Streamlit portal whose only contract-bearing logic is a
thin CRUD layer over one Snowflake table `TB_REPO_APPS_AREAS(NAME, LINKS)`,
where `LINKS` holds a JSON document.  This file shallowly embeds:

* the JSON value model and the behaviour of Python's `json.loads` /
  `json.dumps` as used by the handlers (a verified parser/printer pair with
  Python's error positions, from which `JSONDecodeError.lineno/colno` are
  derived exactly as CPython derives them from `pos`);
* the backing table as a list of rows, with the three SQL statements the app
  issues (INSERT / UPDATE ... WHERE NAME = ... / DELETE ... WHERE NAME = ...)
  as list operations;
* the button handlers `btn_add_area` (create_area), `btn_upd_area`
  (replace_area), `btn_del_area` (delete_area), `btn_del_proj`
  (delete-project), the read path `load_areas_from_sf` (list_areas), and the
  permission mapping of lines 79-106.

Modelling notes (simplifications of external collaborators, not of the app's
own code):

* JSON numbers are modelled as integers; Python's float literals (fractions,
  exponents, `NaN`/`Infinity`) are out of scope, as is `ensure_ascii`
  transcription of non-ASCII characters (the printer emits them raw, which is
  JSON-equivalent).  Duplicate object keys are kept in order rather than
  collapsed to the last occurrence as a Python `dict` would.  Lone-surrogate
  `\uXXXX` escapes are rejected.  No claim depends on these corners.
* The data-warehouse transport is modelled from the spec (section 6): the
  collaborator persists the JSON document verbatim (`PARSE_JSON` of the
  interpolated literal) and `SELECT` returns the `LINKS` variant as its JSON
  text.  The SQL string-literal escaping of line 158 and its inverse in the
  SQL parser are not modelled.
-/

/-- A decoded JSON value, as produced by `json.loads` in `src/app.py`.
Numbers are modelled as integers (see the modelling notes above). -/
inductive Json where
  | null : Json
  | bool (b : Bool) : Json
  | num (n : Int) : Json
  | str (s : String) : Json
  | arr (elems : List Json) : Json
  | obj (fields : List (String × Json)) : Json
  deriving Repr

/-- The check `isinstance(x, list)` on a decoded JSON value (line 153 of `src/app.py`). -/
def Json.isArr : Json → Bool
  | .arr _ => true
  | _ => false

/-! ### Printing: the behaviour of `json.dumps` (default separators) -/

/-- The lowercase hexadecimal digit character for `d < 16`. -/
def hexDig (d : Nat) : Char :=
  if d < 10 then Char.ofNat (48 + d) else Char.ofNat (87 + d)

/-- One character of a JSON string, escaped as `json.dumps` escapes it:
named escapes for the characters in Python's `ESCAPE_DCT` (a quote or a
backslash is preceded by a backslash; newline, tab, carriage return,
backspace and form feed get their letter forms), `\u00xx` for the remaining
control characters, and the character itself otherwise. -/
def escChar (c : Char) : List Char :=
  if c = '"' ∨ c = '\\' then ['\\', c]
  else if c = '\n' then ['\\', 'n']
  else if c = '\t' then ['\\', 't']
  else if c = '\r' then ['\\', 'r']
  else if c = '\x08' then ['\\', 'b']
  else if c = '\x0c' then ['\\', 'f']
  else if c.toNat < 32 then
    '\\' :: 'u' :: '0' :: '0' :: hexDig (c.toNat / 16) :: [hexDig (c.toNat % 16)]
  else [c]

/-- The escaped characters of a string body, in order. -/
def escList : List Char → List Char
  | [] => []
  | c :: cs => escChar c ++ escList cs

/-- A JSON string literal: quote, escaped body, quote. -/
def dumpsStr (s : String) : List Char :=
  '"' :: (escList s.data ++ ['"'])

/-- The decimal digits of `n`, most significant first (`[0]` for zero). -/
def digitsBE (n : Nat) : List Nat :=
  if n = 0 then [0] else (Nat.digits 10 n).reverse

/-- The character of a decimal digit. -/
def digitChar (d : Nat) : Char := Char.ofNat (48 + d)

/-- The decimal digit characters of `n`, most significant first. -/
def printNat (n : Nat) : List Char := (digitsBE n).map digitChar

/-- An integer as `json.dumps` renders it: optional minus sign, then digits. -/
def printInt (i : Int) : List Char :=
  if i < 0 then '-' :: printNat i.natAbs else printNat i.natAbs

mutual

/-- A JSON value as `json.dumps` renders it with the default separators
`", "` and `": "` (so `[1, 2]` and `{"a": 1}`). -/
def dumpsVal : Json → List Char
  | .null => "null".data
  | .bool true => "true".data
  | .bool false => "false".data
  | .num i => printInt i
  | .str s => dumpsStr s
  | .arr [] => ['[', ']']
  | .arr (e :: es) => '[' :: (dumpsVal e ++ (dumpsArrRest es ++ [']']))
  | .obj [] => ['\x7b', '\x7d']
  | .obj ((k, v) :: ps) =>
    '\x7b' :: (dumpsStr k ++ (':' :: ' ' :: (dumpsVal v ++ (dumpsObjRest ps ++ ['\x7d']))))

/-- The `", elem"` continuation of a rendered array. -/
def dumpsArrRest (es : List Json) : List Char :=
  match es with
  | [] => []
  | hd :: tl => ',' :: ' ' :: (dumpsVal hd ++ dumpsArrRest tl)

/-- The `", "key": value"` continuation of a rendered object. -/
def dumpsObjRest (ps : List (String × Json)) : List Char :=
  match ps with
  | [] => []
  | (k, v) :: tl =>
    ',' :: ' ' :: (dumpsStr k ++ (':' :: ' ' :: (dumpsVal v ++ dumpsObjRest tl)))

end

/-- Python `json.dumps` as called at lines 158, 184, 229, 280 and 302 of `src/app.py`. -/
def dumps (j : Json) : String := String.mk (dumpsVal j)

/-! ### Parsing: the behaviour of `json.loads` -/

/-- A decode failure, as Python's `json.JSONDecodeError`: a message and the
character offset `pos` in the document at which decoding failed. -/
structure PErr where
  msg : String
  pos : Nat
  deriving DecidableEq, Repr

/-- Field `lineno` of a `JSONDecodeError`: CPython computes
`doc.count('\n', 0, pos) + 1`. -/
def lineno (s : String) (pos : Nat) : Nat :=
  ((s.data.take pos).count '\n') + 1

/-- Field `colno` of a `JSONDecodeError`: CPython computes
`pos - doc.rfind('\n', 0, pos)`, which is the number of characters after the
last newline before `pos`, plus one. -/
def colno (s : String) (pos : Nat) : Nat :=
  ((s.data.take pos).reverse.takeWhile (fun c => c ≠ '\n')).length + 1

/-- JSON whitespace (the characters Python's scanner skips between tokens). -/
def isWsChar (c : Char) : Bool :=
  c = ' ' || c = '\t' || c = '\n' || c = '\r'

/-- Skip leading whitespace. -/
def skipWs : List Char → List Char
  | [] => []
  | c :: cs => if isWsChar c then skipWs cs else c :: cs

/-- The value of a hexadecimal digit character, if it is one. -/
def hexVal : Char → Option Nat :=
  fun c =>
    if 48 ≤ c.toNat ∧ c.toNat ≤ 57 then some (c.toNat - 48)
    else if 97 ≤ c.toNat ∧ c.toNat ≤ 102 then some (c.toNat - 87)
    else if 65 ≤ c.toNat ∧ c.toNat ≤ 70 then some (c.toNat - 55)
    else none

/-- The value of four hexadecimal digits, if all four are ones. -/
def hex4 (a b c d : Char) : Option Nat :=
  match hexVal a, hexVal b, hexVal c, hexVal d with
  | some va, some vb, some vc, some vd => some (va * 4096 + vb * 256 + vc * 16 + vd)
  | _, _, _, _ => none

/-- Whether `n` is a Unicode scalar value a `Char` can hold (surrogate
`\uXXXX` escapes are rejected; see the modelling notes). -/
def isScalar (n : Nat) : Bool :=
  n < 55296 || (57343 < n && n < 1114112)

/-- The named single-character escapes Python's string scanner accepts
(the self-escaping quote, backslash and slash, and the letter forms of
newline, tab, carriage return, backspace and form feed). -/
def unescChar (e : Char) : Option Char :=
  if e = 'n' then some '\n'
  else if e = 't' then some '\t'
  else if e = 'r' then some '\r'
  else if e = '"' ∨ e = '\\' ∨ e = '/' then some e
  else if e = 'b' then some '\x08'
  else if e = 'f' then some '\x0c'
  else none

/-- Scan a JSON string body after the opening quote: content characters up to
the closing quote, and the remaining input.  `total` is the document length,
used only to compute error offsets (`total` minus remaining length). -/
def parseStrBody (total : Nat) : List Char → Except PErr (List Char × List Char)
  | [] => .error ⟨"Unterminated string starting at", total⟩
  | '"' :: cs => .ok ([], cs)
  | '\\' :: 'u' :: a :: b :: c2 :: d :: cs2 =>
    match hex4 a b c2 d with
    | some m =>
      if isScalar m then
        (parseStrBody total cs2).map fun p => (Char.ofNat m :: p.1, p.2)
      else .error ⟨"Invalid \\uXXXX escape", total - (cs2.length + 4)⟩
    | none => .error ⟨"Invalid \\uXXXX escape", total - (cs2.length + 6)⟩
  | '\\' :: e :: cs2 =>
    match unescChar e with
    | some ch => (parseStrBody total cs2).map fun p => (ch :: p.1, p.2)
    | none => .error ⟨"Invalid \\escape", total - (cs2.length + 2)⟩
  | ['\\'] => .error ⟨"Unterminated string starting at", total⟩
  | c :: cs =>
    if c.toNat < 32 then
      .error ⟨"Invalid control character at", total - (cs.length + 1)⟩
    else (parseStrBody total cs).map fun p => (c :: p.1, p.2)

/-- The longest digit prefix of the input, and the rest. -/
def takeDigits : List Char → List Char × List Char
  | [] => ([], [])
  | c :: cs =>
    if c.isDigit then
      let p := takeDigits cs
      (c :: p.1, p.2)
    else ([], c :: cs)

/-- The numeric value of a digit string (most significant first). -/
def digitsVal (ds : List Char) : Nat :=
  ds.foldl (fun a c => a * 10 + (c.toNat - 48)) 0

/-- Input that cannot extend a number: empty, or headed by a non-digit.
Every character following a value in `json.dumps` output qualifies. -/
def noDigitHead : List Char → Bool
  | [] => true
  | c :: _ => !c.isDigit

/-- Scan a JSON number (integer grammar; see the modelling notes) at the head
of the input.  Called only when the head is `-` or a digit. -/
def parseNumFrom (total : Nat) (cs : List Char) : Except PErr (Json × List Char) :=
  match cs with
  | [] => .error ⟨"Expecting value", total⟩
  | c :: cs1 =>
    if c = '-' then
      let p := takeDigits cs1
      if p.1 = [] then .error ⟨"Expecting value", total - (cs1.length + 1)⟩
      else .ok (.num (-(digitsVal p.1 : Int)), p.2)
    else
      let p := takeDigits (c :: cs1)
      if p.1 = [] then .error ⟨"Expecting value", total - (cs1.length + 1)⟩
      else .ok (.num (digitsVal p.1), p.2)

mutual

/-- Scan one JSON value (Python's `scan_once`): skip whitespace, dispatch on
the first character.  Structural on `fuel`; `jsonParse` supplies enough fuel
for any input, and the round-trip theorems quantify over sufficient fuel. -/
def parseVal : Nat → Nat → List Char → Except PErr (Json × List Char)
  | 0, total, cs => .error ⟨"Expecting value", total - (skipWs cs).length⟩
  | fuel + 1, total, cs =>
    match skipWs cs with
    | [] => .error ⟨"Expecting value", total⟩
    | c :: cs2 =>
      if c = '"' then
        match parseStrBody total cs2 with
        | .ok (content, rest) => .ok (.str (String.mk content), rest)
        | .error e => .error e
      else if c = '\x7b' then
        match skipWs cs2 with
        | [] => .error ⟨"Expecting property name enclosed in double quotes", total⟩
        | c2 :: cs3 =>
          if c2 = '\x7d' then .ok (.obj [], cs3)
          else if c2 = '"' then
            match parseStrBody total cs3 with
            | .error e => .error e
            | .ok (key, cs4) =>
              match skipWs cs4 with
              | [] => .error ⟨"Expecting ':' delimiter", total⟩
              | c3 :: cs5 =>
                if c3 = ':' then
                  match parseVal fuel total cs5 with
                  | .error e => .error e
                  | .ok (v, cs6) =>
                    match parseObjTail fuel total cs6 with
                    | .error e => .error e
                    | .ok (ps, rest) => .ok (.obj ((String.mk key, v) :: ps), rest)
                else .error ⟨"Expecting ':' delimiter", total - (cs5.length + 1)⟩
          else
            .error ⟨"Expecting property name enclosed in double quotes",
              total - (cs3.length + 1)⟩
      else if c = '[' then
        match skipWs cs2 with
        | [] => .error ⟨"Expecting value", total⟩
        | c2 :: cs3 =>
          if c2 = ']' then .ok (.arr [], cs3)
          else
            match parseVal fuel total (c2 :: cs3) with
            | .error e => .error e
            | .ok (e, cs4) =>
              match parseArrTail fuel total cs4 with
              | .error err => .error err
              | .ok (es, rest) => .ok (.arr (e :: es), rest)
      else if c = 'n' then
        match cs2 with
        | 'u' :: 'l' :: 'l' :: rest => .ok (.null, rest)
        | _ => .error ⟨"Expecting value", total - (cs2.length + 1)⟩
      else if c = 't' then
        match cs2 with
        | 'r' :: 'u' :: 'e' :: rest => .ok (.bool true, rest)
        | _ => .error ⟨"Expecting value", total - (cs2.length + 1)⟩
      else if c = 'f' then
        match cs2 with
        | 'a' :: 'l' :: 's' :: 'e' :: rest => .ok (.bool false, rest)
        | _ => .error ⟨"Expecting value", total - (cs2.length + 1)⟩
      else if c = '-' ∨ c.isDigit then parseNumFrom total (c :: cs2)
      else .error ⟨"Expecting value", total - (cs2.length + 1)⟩

/-- Scan the continuation of a non-empty array: whitespace, then `]` ending
it or `,` followed by another value. -/
def parseArrTail : Nat → Nat → List Char → Except PErr (List Json × List Char)
  | 0, total, cs => .error ⟨"Expecting ',' delimiter", total - (skipWs cs).length⟩
  | fuel + 1, total, cs =>
    match skipWs cs with
    | [] => .error ⟨"Expecting ',' delimiter", total⟩
    | c :: cs2 =>
      if c = ']' then .ok ([], cs2)
      else if c = ',' then
        match parseVal fuel total cs2 with
        | .error e => .error e
        | .ok (e, cs3) =>
          match parseArrTail fuel total cs3 with
          | .error err => .error err
          | .ok (es, rest) => .ok (e :: es, rest)
      else .error ⟨"Expecting ',' delimiter", total - (cs2.length + 1)⟩

/-- Scan the continuation of a non-empty object: whitespace, then `}` ending
it or `,` followed by another `"key": value` pair. -/
def parseObjTail : Nat → Nat → List Char → Except PErr (List (String × Json) × List Char)
  | 0, total, cs => .error ⟨"Expecting ',' delimiter", total - (skipWs cs).length⟩
  | fuel + 1, total, cs =>
    match skipWs cs with
    | [] => .error ⟨"Expecting ',' delimiter", total⟩
    | c :: cs2 =>
      if c = '\x7d' then .ok ([], cs2)
      else if c = ',' then
        match skipWs cs2 with
        | [] => .error ⟨"Expecting property name enclosed in double quotes", total⟩
        | c2 :: cs3 =>
          if c2 = '"' then
            match parseStrBody total cs3 with
            | .error e => .error e
            | .ok (key, cs4) =>
              match skipWs cs4 with
              | [] => .error ⟨"Expecting ':' delimiter", total⟩
              | c3 :: cs5 =>
                if c3 = ':' then
                  match parseVal fuel total cs5 with
                  | .error e => .error e
                  | .ok (v, cs6) =>
                    match parseObjTail fuel total cs6 with
                    | .error e => .error e
                    | .ok (ps, rest) => .ok ((String.mk key, v) :: ps, rest)
                else .error ⟨"Expecting ':' delimiter", total - (cs5.length + 1)⟩
          else
            .error ⟨"Expecting property name enclosed in double quotes",
              total - (cs3.length + 1)⟩
      else .error ⟨"Expecting ',' delimiter", total - (cs2.length + 1)⟩

end

/-- Python `json.loads` as called by the handlers of `src/app.py`: scan one value,
then require only whitespace to follow (else Python's `Extra data` error). -/
def jsonParse (s : String) : Except PErr Json :=
  match parseVal (s.data.length + 1) s.data.length s.data with
  | .error e => .error e
  | .ok (j, rest) =>
    match skipWs rest with
    | [] => .ok j
    | r => .error ⟨"Extra data", s.data.length - r.length⟩

/-! ### The backing table and the SQL statements the app issues

The table `TB_REPO_APPS_AREAS(NAME, LINKS)` is modelled as a list of rows in
insertion order.  `LINKS` is the column value as the Snowpark `collect()` of
lines 25-28 returns it: the JSON text of the variant, or `NULL`.  Modelled
from the spec: the data-warehouse collaborator of spec section 6 persists the
JSON document written through `PARSE_JSON` verbatim and returns it as its
text; the SQL string-literal layer is not modelled. -/

/-- One row of `TB_REPO_APPS_AREAS`. -/
structure Row where
  name : String
  links : Option String
  deriving DecidableEq, Repr

/-- Statement `INSERT INTO TB_REPO_APPS_AREAS (NAME, LINKS) SELECT name, PARSE_JSON(txt)`
(lines 162-165): appends a row whose variant text is `txt`. -/
def dbInsert (t : List Row) (name txt : String) : List Row :=
  t ++ [⟨name, some txt⟩]

/-- Statement `UPDATE TB_REPO_APPS_AREAS SET NAME = new, LINKS = PARSE_JSON(txt)
WHERE NAME = old` (lines 185-189): rewrites every row matching `old`;
zero matching rows leave the table unchanged. -/
def dbUpdate (t : List Row) (old new txt : String) : List Row :=
  t.map fun r => if r.name = old then ⟨new, some txt⟩ else r

/-- Statement `UPDATE TB_REPO_APPS_AREAS SET LINKS = PARSE_JSON(txt) WHERE NAME = name`
(lines 300-304): rewrites the links of every row matching `name`. -/
def dbUpdateLinks (t : List Row) (name txt : String) : List Row :=
  t.map fun r => if r.name = name then ⟨r.name, some txt⟩ else r

/-- Statement `DELETE FROM TB_REPO_APPS_AREAS WHERE NAME = sel` (line 202). -/
def delete_area (t : List Row) (sel : String) : List Row :=
  t.filter fun r => r.name ≠ sel

/-! ### The read path: `load_areas_from_sf` (lines 23-41) -/

/-- One area as the app holds it in memory: a name and the decoded links. -/
structure Area where
  name : String
  links : Json
  deriving Repr

/-- The decode of one row's `LINKS` value (lines 31-39): a string is parsed
with `json.loads`, a failed parse is downgraded to `[]`, and a missing value
is `[]` (`links = []` before the `if`; `None` is not a `str` and is falsy). -/
def decodeLinks : Option String → Json
  | none => .arr []
  | some s =>
    match jsonParse s with
    | .ok j => j
    | .error _ => .arr []

/-- Row order used by `ORDER BY NAME` (line 27). -/
def rowLe (a b : Row) : Prop := a.name ≤ b.name

instance : DecidableRel rowLe := fun a b => inferInstanceAs (Decidable (a.name ≤ b.name))

instance : IsTotal Row rowLe := ⟨fun a b => le_total a.name b.name⟩

instance : IsTrans Row rowLe := ⟨fun _ _ _ h h2 => le_trans h h2⟩

/-- Read path `load_areas_from_sf` (lines 23-41): select name and links ordered by
name, decode each row's links. -/
def load_areas_from_sf (t : List Row) : List Area :=
  (List.insertionSort rowLe t).map fun r => ⟨r.name, decodeLinks r.links⟩

/-! ### The write handlers (subtab Áreas) -/

/-- The outcome of a button handler: a successful write producing the new
table, a `st.error` on invalid input before any write, or a caught runtime
exception (`except Exception`) before any write. -/
inductive WriteOutcome where
  | written (t : List Row)
  | validationError (msg : String)
  | runtimeError (msg : String)
  deriving DecidableEq, Repr

/-- The `st.error` text of lines 150 and 193:
`f"JSON inválido: {e.msg} (linha {e.lineno}, coluna {e.colno})"`. -/
def jsonDecodeErrMsg (s : String) (e : PErr) : String :=
  "JSON inválido: " ++ e.msg ++ " (linha " ++ toString (lineno s e.pos) ++
    ", coluna " ++ toString (colno s e.pos) ++ ")"

/-- Handler `btn_add_area` (lines 145-169), the spec's `create_area`: parse the links
text (`st.error` + `st.stop` on `JSONDecodeError`), require a list
(`st.error` + `st.stop` otherwise), then INSERT the dumped document. -/
def create_area (t : List Row) (new_area new_links_json : String) : WriteOutcome :=
  match jsonParse new_links_json with
  | .error e => .validationError (jsonDecodeErrMsg new_links_json e)
  | .ok parsed =>
    if parsed.isArr then .written (dbInsert t new_area (dumps parsed))
    else .validationError "O JSON deve ser uma **lista** de objetos."

/-- Handler `btn_upd_area` (lines 181-195), the spec's `replace_area`: parse the links
text (`JSONDecodeError` is caught and reported, no write), then UPDATE name
and links of the row(s) matching `sel`.  Note: unlike `create_area`, there is
no `isinstance(parsed_links, list)` check. -/
def replace_area (t : List Row) (sel new_area_name new_links_json : String) : WriteOutcome :=
  match jsonParse new_links_json with
  | .error e => .validationError (jsonDecodeErrMsg new_links_json e)
  | .ok parsed => .written (dbUpdate t sel new_area_name (dumps parsed))

/-! ### The delete-project handler (subtab Projetos, lines 291-308) -/

/-- Python subscript `x["name"]` on a decoded JSON value: the first binding of
an object, `none` when the subscript would raise (`KeyError`/`TypeError`). -/
def getField : Json → String → Option Json
  | .obj fields, k => (fields.find? fun p => p.1 = k).map fun p => p.2
  | _, _ => none

/-- Python `x == s` for a decoded JSON value `x` and a string `s`: true
exactly for the equal string (a non-string value never equals a `str`). -/
def pyEqStr : Json → String → Bool
  | .str t, s => t = s
  | _, _ => false

/-- Python iteration over a decoded JSON value, as the list comprehension of
line 299 iterates `area_obj["links"]`: a list yields its elements, a dict its
keys, a string its characters, anything else raises `TypeError`. -/
def pyIter : Json → Except String (List Json)
  | .arr es => .ok es
  | .obj ps => .ok (ps.map fun p => .str p.1)
  | .str s => .ok (s.data.map fun c => .str (String.mk [c]))
  | _ => .error "TypeError: not iterable"

/-- The comprehension `[l for l in links if l["name"] != sel_proj]` of line
299: evaluated left to right, raising at the first element whose `l["name"]`
subscript fails, keeping the elements whose name differs from `sel_proj`. -/
def delProjLinks (sel : String) : List Json → Except String (List Json)
  | [] => .ok []
  | l :: ls =>
    match getField l "name" with
    | none => .error "KeyError: name"
    | some v =>
      match delProjLinks sel ls with
      | .error e => .error e
      | .ok tail => if pyEqStr v sel then .ok tail else .ok (l :: tail)

/-- Handler `btn_del_proj` (lines 291-308): find the first area named `sel_area`
(line 294's `next(...)`, a render-time crash when absent), filter its links by
project name, and UPDATE that area's LINKS with the dumped result.  Any
exception inside the `try` is caught (`st.error`) before the write. -/
def btn_del_proj (t : List Row) (areas : List Area) (sel_area sel_proj : String) :
    WriteOutcome :=
  match areas.find? fun a => a.name = sel_area with
  | none => .runtimeError "StopIteration"
  | some a =>
    match pyIter a.links with
    | .error e => .runtimeError e
    | .ok ls =>
      match delProjLinks sel_proj ls with
      | .error e => .runtimeError e
      | .ok updated => .written (dbUpdateLinks t sel_area (dumps (.arr updated)))

/-! ### Permissions (lines 79-106) -/

/-- A principal's permission: the string `"all"`, or an explicit allow-list
of area names (the `.get` default `[]` is the empty allow-list). -/
inductive Permission where
  | all : Permission
  | allowed (names : List String) : Permission
  deriving DecidableEq, Repr

/-- Python `str.lower()` as the app applies it to usernames and mapping keys
(characterwise; like `Char.toLower` this handles the basic latin letters the
mapping uses). -/
def pyLower (s : String) : String := String.mk (s.data.map Char.toLower)

/-- Mapping `raw_permissions` (lines 80-83). -/
def raw_permissions : List (String × Permission) :=
  [("spdo", .all),
   ("test_user", .allowed ["Cadastramento e Governança BP", "Coleta Tradicional"])]

/-- Lowered mapping `user_permissions` (line 84): the dict comprehension keyed
by the lowercased `raw_permissions` keys. -/
def user_permissions : List (String × Permission) :=
  raw_permissions.map fun p => (pyLower p.1, p.2)

/-- Lookup `permitted = user_permissions.get(username, [])` on the lowercased
session username (lines 79, 85). -/
def permittedFor (username : String) : Permission :=
  match user_permissions.find? fun p => p.1 = pyLower username with
  | some p => p.2
  | none => .allowed []

/-- The tab list of lines 88-91: the management tab exists only for `"all"`. -/
def tab_names (p : Permission) : List String :=
  if p = Permission.all then ["Aplicações", "Gerenciamento"] else ["Aplicações"]

/-- Filter `areas_to_show` (lines 100-103): everything for `"all"`, otherwise the
areas whose name is in the allow-list. -/
def areas_to_show (p : Permission) (areas : List Area) : List Area :=
  match p with
  | .all => areas
  | .allowed names => areas.filter fun a => a.name ∈ names

/-! ### Toolbox lemmas for the `json.loads` / `json.dumps` round trip -/

lemma string_mk_data (s : String) : String.mk s.data = s := rfl

lemma skipWs_cons_not (c : Char) (cs : List Char) (h : isWsChar c = false) :
    skipWs (c :: cs) = c :: cs := by
  simp [skipWs, h]

lemma parseVal_cons_space (fuel total : Nat) (cs : List Char) :
    parseVal fuel total (' ' :: cs) = parseVal fuel total cs := by
  have hws : skipWs (' ' :: cs) = skipWs cs := by simp [skipWs, isWsChar]
  cases fuel with
  | zero => simp only [parseVal, hws]
  | succ f => simp only [parseVal, hws]

lemma hexVal_hexDig : ∀ d, d < 16 → hexVal (hexDig d) = some d := by decide

lemma digitChar_spec : ∀ d, d < 10 →
    (digitChar d).isDigit = true ∧ (digitChar d).toNat - 48 = d := by decide

lemma isDigit_char_cases (c : Char) (h : c.isDigit = true) :
    c ≠ '"' ∧ c ≠ '\\' ∧ c ≠ '\x7b' ∧ c ≠ '[' ∧ c ≠ 'n' ∧ c ≠ 't' ∧ c ≠ 'f' ∧
      c ≠ '-' ∧ c ≠ ']' ∧ c ≠ '\x7d' ∧ c ≠ ',' ∧ isWsChar c = false := by
  have hne : ∀ x : Char, x.isDigit = false → c ≠ x := by
    intro x hx hcx
    rw [hcx, hx] at h
    cases h
  have hws : isWsChar c = false := by
    cases hw : isWsChar c with
    | false => rfl
    | true =>
      exfalso
      have hc : ((c = ' ' ∨ c = '\t') ∨ c = '\n') ∨ c = '\r' := by
        simpa [isWsChar] using hw
      rcases hc with ((rfl | rfl) | rfl) | rfl <;> exact absurd h (by decide)
  exact ⟨hne _ (by decide), hne _ (by decide), hne _ (by decide), hne _ (by decide),
    hne _ (by decide), hne _ (by decide), hne _ (by decide), hne _ (by decide),
    hne _ (by decide), hne _ (by decide), hne _ (by decide), hws⟩

lemma mem_digitsBE_lt (n : Nat) : ∀ d ∈ digitsBE n, d < 10 := by
  intro d hd
  by_cases hn : n = 0
  · rw [digitsBE, if_pos hn] at hd
    simp at hd
    omega
  · rw [digitsBE, if_neg hn, List.mem_reverse] at hd
    exact Nat.digits_lt_base (by norm_num) hd

lemma digitsBE_ne_nil (n : Nat) : digitsBE n ≠ [] := by
  by_cases hn : n = 0
  · simp [digitsBE, hn]
  · rw [digitsBE, if_neg hn]
    simp [Nat.digits_ne_nil_iff_ne_zero, hn]

lemma printNat_digits (n : Nat) : ∀ c ∈ printNat n, c.isDigit = true := by
  intro c hc
  rw [printNat, List.mem_map] at hc
  obtain ⟨d, hd, rfl⟩ := hc
  exact (digitChar_spec d (mem_digitsBE_lt n d hd)).1

lemma printNat_ne_nil (n : Nat) : printNat n ≠ [] := by
  rw [printNat]
  simpa using digitsBE_ne_nil n

lemma takeDigits_append : ∀ (ds rest : List Char), (∀ c ∈ ds, c.isDigit = true) →
    noDigitHead rest = true → takeDigits (ds ++ rest) = (ds, rest)
  | [], rest, _, hr => by
    cases rest with
    | nil => rfl
    | cons c cs =>
      have hc : c.isDigit = false := by simpa [noDigitHead] using hr
      simp [takeDigits, hc]
  | d :: ds, rest, hds, hr => by
    have hd : d.isDigit = true := hds d (List.mem_cons_self ..)
    have ih := takeDigits_append ds rest (fun c hc => hds c (List.mem_cons_of_mem _ hc)) hr
    simp [takeDigits, hd, ih]

lemma foldl_digitChar (ds : List Nat) (h : ∀ d ∈ ds, d < 10) : ∀ acc : Nat,
    (ds.map digitChar).foldl (fun a c => a * 10 + (c.toNat - 48)) acc
      = acc * 10 ^ ds.length + Nat.ofDigits 10 ds.reverse := by
  induction ds with
  | nil => intro acc; simp [Nat.ofDigits]
  | cons d ds ih =>
    intro acc
    have hd : (digitChar d).toNat - 48 = d := (digitChar_spec d (h d (List.mem_cons_self ..))).2
    rw [List.map_cons, List.foldl_cons, hd,
      ih (fun x hx => h x (List.mem_cons_of_mem _ hx)) (acc * 10 + d)]
    rw [List.reverse_cons, Nat.ofDigits_append, Nat.ofDigits_singleton]
    simp only [List.length_cons, List.length_reverse]
    ring

lemma digitsVal_printNat (n : Nat) : digitsVal (printNat n) = n := by
  rw [digitsVal, printNat, foldl_digitChar _ (mem_digitsBE_lt n) 0]
  by_cases hn : n = 0
  · simp [digitsBE, hn, Nat.ofDigits]
  · rw [digitsBE, if_neg hn, List.reverse_reverse, Nat.ofDigits_digits]
    simp

lemma parseNumFrom_printInt (total : Nat) (i : Int) (rest : List Char)
    (hr : noDigitHead rest = true) :
    parseNumFrom total (printInt i ++ rest) = .ok (.num i, rest) := by
  have htd := takeDigits_append (printNat i.natAbs) rest (printNat_digits _) hr
  by_cases hi : i < 0
  · rw [printInt, if_pos hi, List.cons_append]
    simp only [parseNumFrom, if_pos rfl, htd]
    rw [if_neg (printNat_ne_nil i.natAbs)]
    have hv : -(digitsVal (printNat i.natAbs) : Int) = i := by
      rw [digitsVal_printNat]; omega
    rw [hv]
    simp
  · rw [printInt, if_neg hi]
    obtain ⟨c, t, hct⟩ := List.exists_cons_of_ne_nil (printNat_ne_nil i.natAbs)
    have hcd : c.isDigit = true := printNat_digits _ c (by rw [hct]; exact List.mem_cons_self ..)
    have hcm : c ≠ '-' := (isDigit_char_cases c hcd).2.2.2.2.2.2.2.1
    rw [hct, List.cons_append]
    simp only [parseNumFrom, if_neg hcm]
    rw [show c :: (t ++ rest) = (c :: t) ++ rest from rfl, ← hct, htd]
    rw [if_neg (printNat_ne_nil i.natAbs)]
    have hv : (digitsVal (printNat i.natAbs) : Int) = i := by
      rw [digitsVal_printNat]; omega
    rw [hv]

lemma noDigitHead_arrRest (es : List Json) (rest : List Char) :
    noDigitHead (dumpsArrRest es ++ ']' :: rest) = true := by
  cases es <;> simp [dumpsArrRest, noDigitHead]

lemma noDigitHead_objRest (ps : List (String × Json)) (rest : List Char) :
    noDigitHead (dumpsObjRest ps ++ '\x7d' :: rest) = true := by
  cases ps with
  | nil => simp [dumpsObjRest, noDigitHead]
  | cons p ps => obtain ⟨k, v⟩ := p; simp [dumpsObjRest, noDigitHead]

lemma dumpsVal_head (j : Json) : ∃ c t, dumpsVal j = c :: t ∧
    (isWsChar c = false ∧ c ≠ ']' ∧ c ≠ '\x7d') := by
  cases j with
  | null => exact ⟨'n', _, rfl, by decide⟩
  | bool b =>
    cases b with
    | false => exact ⟨'f', _, rfl, by decide⟩
    | true => exact ⟨'t', _, rfl, by decide⟩
  | num i =>
    by_cases hi : i < 0
    · exact ⟨'-', printNat i.natAbs, by simp [dumpsVal, printInt, hi], by decide⟩
    · obtain ⟨c, t, hct⟩ := List.exists_cons_of_ne_nil (printNat_ne_nil i.natAbs)
      have hcd : c.isDigit = true :=
        printNat_digits _ c (by rw [hct]; exact List.mem_cons_self ..)
      have hf := isDigit_char_cases c hcd
      exact ⟨c, t, by simp [dumpsVal, printInt, hi, hct],
        hf.2.2.2.2.2.2.2.2.2.2.2, hf.2.2.2.2.2.2.2.2.1, hf.2.2.2.2.2.2.2.2.2.1⟩
  | str s => exact ⟨'"', _, rfl, by decide⟩
  | arr es =>
    cases es with
    | nil => exact ⟨'[', _, rfl, by decide⟩
    | cons e tl => exact ⟨'[', _, rfl, by decide⟩
  | obj ps =>
    cases ps with
    | nil => exact ⟨'\x7b', _, rfl, by decide⟩
    | cons p tl =>
      obtain ⟨k, v⟩ := p
      exact ⟨'\x7b', _, rfl, by decide⟩

lemma parseStrBody_escChar (total : Nat) (c : Char) (more : List Char) :
    parseStrBody total (escChar c ++ more)
      = (parseStrBody total more).map fun p => (c :: p.1, p.2) := by
  rw [escChar]
  split_ifs with h1 h2 h3 h4 h5 h6 hlt
  · rcases h1 with rfl | rfl
    · rfl
    · rfl
  · subst h2; rfl
  · subst h3; rfl
  · subst h4; rfl
  · subst h5; rfl
  · subst h6; rfl
  · have ha : c.toNat / 16 < 16 := by omega
    have hb : c.toNat % 16 < 16 := by omega
    have hx : hex4 '0' '0' (hexDig (c.toNat / 16)) (hexDig (c.toNat % 16))
        = some c.toNat := by
      rw [hex4, show hexVal '0' = some 0 from by decide,
        hexVal_hexDig _ ha, hexVal_hexDig _ hb]
      simp only [Option.bind_eq_bind, Option.some_bind, Option.pure_def]
      congr 1
      omega
    have hsc : isScalar c.toNat = true := by
      simp only [isScalar, Bool.or_eq_true, decide_eq_true_eq]
      omega
    simp [parseStrBody, hx, hsc]
  · have hq : c ≠ '"' := fun hc => h1 (Or.inl hc)
    have hbs : c ≠ '\\' := fun hc => h1 (Or.inr hc)
    simp only [List.cons_append, List.nil_append]
    rw [parseStrBody.eq_def]
    split
    · rename_i heq
      exact absurd heq (by simp)
    · rename_i heq
      rw [List.cons.injEq] at heq
      exact absurd heq.1 hq
    · rename_i heq
      rw [List.cons.injEq] at heq
      exact absurd heq.1 hbs
    · rename_i heq
      rw [List.cons.injEq] at heq
      exact absurd heq.1 hbs
    · rename_i heq
      rw [List.cons.injEq] at heq
      exact absurd heq.1 hbs
    · rename_i x cs heq
      rw [List.cons.injEq] at heq
      obtain ⟨hcx, hmc⟩ := heq
      subst hcx
      subst hmc
      rw [if_neg hlt]

lemma parseStrBody_escList (total : Nat) : ∀ (l rest : List Char),
    parseStrBody total (escList l ++ '"' :: rest) = .ok (l, rest)
  | [], rest => rfl
  | c :: l, rest => by
    rw [escList, List.append_assoc, parseStrBody_escChar,
      parseStrBody_escList total l rest]
    rfl

lemma data_mk (l : List Char) : (String.mk l).data = l := rfl

lemma skipWs_space (X : List Char) : skipWs (' ' :: X) = skipWs X := by
  simp [skipWs, isWsChar]

lemma skipWs_lbrack (X : List Char) : skipWs ('[' :: X) = '[' :: X :=
  skipWs_cons_not _ _ (by decide)

lemma skipWs_obrace (X : List Char) : skipWs ('\x7b' :: X) = '\x7b' :: X :=
  skipWs_cons_not _ _ (by decide)

lemma skipWs_quote (X : List Char) : skipWs ('"' :: X) = '"' :: X :=
  skipWs_cons_not _ _ (by decide)

lemma skipWs_colon (X : List Char) : skipWs (':' :: X) = ':' :: X :=
  skipWs_cons_not _ _ (by decide)

lemma skipWs_comma (X : List Char) : skipWs (',' :: X) = ',' :: X :=
  skipWs_cons_not _ _ (by decide)

lemma parseVal_succ_digit (f total : Nat) (c : Char) (cs : List Char)
    (hcd : c.isDigit = true) :
    parseVal (f + 1) total (c :: cs) = parseNumFrom total (c :: cs) := by
  obtain ⟨hq, _hbs, hob, hbk, hn, ht, hf2, _hm, _, _, _, hws⟩ := isDigit_char_cases c hcd
  simp only [parseVal]
  rw [skipWs_cons_not c cs hws]
  simp [hq, hob, hbk, hn, ht, hf2, hcd]

lemma parseVal_printInt (f total : Nat) (i : Int) (rest : List Char)
    (hr : noDigitHead rest = true) :
    parseVal (f + 1) total (printInt i ++ rest) = .ok (.num i, rest) := by
  have h2 := parseNumFrom_printInt total i rest hr
  by_cases hi : i < 0
  · rw [printInt, if_pos hi, List.cons_append]
    rw [printInt, if_pos hi, List.cons_append] at h2
    rw [show parseVal (f + 1) total ('-' :: (printNat i.natAbs ++ rest))
        = parseNumFrom total ('-' :: (printNat i.natAbs ++ rest)) from rfl]
    exact h2
  · rw [printInt, if_neg hi]
    obtain ⟨c, t, hct⟩ := List.exists_cons_of_ne_nil (printNat_ne_nil i.natAbs)
    have hcd : c.isDigit = true :=
      printNat_digits _ c (by rw [hct]; exact List.mem_cons_self ..)
    rw [printInt, if_neg hi, hct, List.cons_append] at h2
    rw [hct, List.cons_append, parseVal_succ_digit f total c (t ++ rest) hcd]
    exact h2

theorem parse_dumps (fuel : Nat) :
    (∀ total (j : Json) rest, (dumpsVal j).length < fuel → noDigitHead rest = true →
        parseVal fuel total (dumpsVal j ++ rest) = .ok (j, rest))
    ∧ (∀ total (es : List Json) rest, (dumpsArrRest es).length < fuel →
        parseArrTail fuel total (dumpsArrRest es ++ ']' :: rest) = .ok (es, rest))
    ∧ (∀ total (ps : List (String × Json)) rest, (dumpsObjRest ps).length < fuel →
        parseObjTail fuel total (dumpsObjRest ps ++ '\x7d' :: rest) = .ok (ps, rest)) := by
  induction fuel with
  | zero =>
    exact ⟨fun total j rest hlen _ => absurd hlen (Nat.not_lt_zero _),
      fun total es rest hlen => absurd hlen (Nat.not_lt_zero _),
      fun total ps rest hlen => absurd hlen (Nat.not_lt_zero _)⟩
  | succ f ih =>
    obtain ⟨ihV, ihA, ihO⟩ := ih
    refine ⟨?_, ?_, ?_⟩
    · intro total j rest hlen hnd
      cases j with
      | null => rfl
      | bool b => cases b <;> rfl
      | num i => exact parseVal_printInt f total i rest hnd
      | str s =>
        simp only [dumpsVal, dumpsStr, List.cons_append, List.append_assoc,
          List.singleton_append]
        simp only [parseVal]
        simp [skipWs_quote, parseStrBody_escList, string_mk_data]
      | arr es =>
        cases es with
        | nil => rfl
        | cons e tl =>
          simp only [dumpsVal, List.length_cons, List.length_append] at hlen
          have hl1 : (dumpsVal e).length < f := by omega
          have hl2 : (dumpsArrRest tl).length < f := by omega
          have ih1 := ihV total e (dumpsArrRest tl ++ ']' :: rest) hl1
            (noDigitHead_arrRest tl rest)
          have ih2 := ihA total tl rest hl2
          obtain ⟨c, t, hct, hws, hbr, _⟩ := dumpsVal_head e
          rw [hct] at ih1
          simp only [List.cons_append] at ih1
          simp only [dumpsVal, List.cons_append, List.append_assoc]
          rw [hct]
          simp only [List.cons_append]
          simp only [parseVal]
          rw [skipWs_lbrack]
          simp [skipWs_cons_not c _ hws, hbr, ih1, ih2]
      | obj ps =>
        cases ps with
        | nil => rfl
        | cons p ps' =>
          obtain ⟨k, v⟩ := p
          simp only [dumpsVal, dumpsStr, List.length_cons, List.length_append] at hlen
          have hl1 : (dumpsVal v).length < f := by omega
          have hl2 : (dumpsObjRest ps').length < f := by omega
          have ih1 := ihV total v (dumpsObjRest ps' ++ '\x7d' :: rest) hl1
            (noDigitHead_objRest ps' rest)
          have ih2 := ihO total ps' rest hl2
          simp only [dumpsVal, dumpsStr, List.cons_append, List.append_assoc,
            List.singleton_append]
          simp only [parseVal]
          rw [skipWs_obrace]
          simp [skipWs_quote, skipWs_colon, parseStrBody_escList, parseVal_cons_space,
            string_mk_data, ih1, ih2]
    · intro total es rest hlen
      cases es with
      | nil => rfl
      | cons e tl =>
        simp only [dumpsArrRest, List.length_cons, List.length_append] at hlen
        have hl1 : (dumpsVal e).length < f := by omega
        have hl2 : (dumpsArrRest tl).length < f := by omega
        have ih1 := ihV total e (dumpsArrRest tl ++ ']' :: rest) hl1
          (noDigitHead_arrRest tl rest)
        have ih2 := ihA total tl rest hl2
        simp only [dumpsArrRest, List.cons_append, List.append_assoc]
        simp only [parseArrTail]
        rw [skipWs_comma]
        simp [parseVal_cons_space, ih1, ih2]
    · intro total ps rest hlen
      cases ps with
      | nil => rfl
      | cons p ps' =>
        obtain ⟨k, v⟩ := p
        simp only [dumpsObjRest, dumpsStr, List.length_cons, List.length_append] at hlen
        have hl1 : (dumpsVal v).length < f := by omega
        have hl2 : (dumpsObjRest ps').length < f := by omega
        have ih1 := ihV total v (dumpsObjRest ps' ++ '\x7d' :: rest) hl1
          (noDigitHead_objRest ps' rest)
        have ih2 := ihO total ps' rest hl2
        simp only [dumpsObjRest, dumpsStr, List.cons_append, List.append_assoc,
          List.singleton_append]
        simp only [parseObjTail]
        rw [skipWs_comma]
        simp [skipWs_space, skipWs_quote, skipWs_colon, parseStrBody_escList,
          parseVal_cons_space, string_mk_data, ih1, ih2]

/-- The codec round trip: `json.loads (json.dumps j)` recovers `j` exactly.
This is what makes a stored document "semantically equivalent" to the decoded
value the handler validated. -/
theorem jsonParse_dumps (j : Json) : jsonParse (dumps j) = .ok j := by
  have h := (parse_dumps ((dumpsVal j).length + 1)).1 (dumpsVal j).length j []
    (Nat.lt_succ_self _) rfl
  rw [List.append_nil] at h
  simp [jsonParse, dumps, data_mk, h, skipWs]

/-! ### Catalog-store lemmas -/

lemma decodeLinks_dumps (j : Json) : decodeLinks (some (dumps j)) = j := by
  simp [decodeLinks, jsonParse_dumps]

lemma mem_load_areas (t : List Row) (r : Row) (hr : r ∈ t) :
    Area.mk r.name (decodeLinks r.links) ∈ load_areas_from_sf t := by
  rw [load_areas_from_sf]
  exact List.mem_map_of_mem _ ((List.perm_insertionSort rowLe t).mem_iff.mpr hr)

lemma mem_load_areas_iff (t : List Row) (a : Area) :
    a ∈ load_areas_from_sf t
      ↔ ∃ r ∈ t, a = Area.mk r.name (decodeLinks r.links) := by
  rw [load_areas_from_sf, List.mem_map]
  constructor
  · rintro ⟨r, hr, rfl⟩
    exact ⟨r, (List.perm_insertionSort rowLe t).mem_iff.mp hr, rfl⟩
  · rintro ⟨r, hr, rfl⟩
    exact ⟨r, (List.perm_insertionSort rowLe t).mem_iff.mpr hr, rfl⟩

/-! ### The claims -/

/-- C2: `create_area` issues its insert exactly when the caller-supplied links
text is valid JSON decoding to a sequence; a syntax error yields the
`st.error` + `st.stop` path with the message of line 150, which embeds the
decode failure location (`linha`/`coluna` derived from `e.pos` as CPython
derives `lineno`/`colno`); valid JSON of non-sequence shape yields the list
error of line 154; in both failure cases no write is issued. -/
theorem create_area_spec (t : List Row) (name s : String) :
    (∀ e, jsonParse s = .error e →
        create_area t name s = .validationError (jsonDecodeErrMsg s e))
    ∧ (∀ j, jsonParse s = .ok j → j.isArr = false →
        create_area t name s = .validationError "O JSON deve ser uma **lista** de objetos.")
    ∧ (∀ j, jsonParse s = .ok j → j.isArr = true →
        create_area t name s = .written (dbInsert t name (dumps j))) := by
  refine ⟨?_, ?_, ?_⟩
  · intro e he
    simp [create_area, he]
  · intro j hj ha
    simp [create_area, hj, ha]
  · intro j hj ha
    simp [create_area, hj, ha]

/-- C2 witness: on the empty table, `create_area` with links text `[]`
performs exactly the insert of the dumped empty list. -/
theorem create_area_spec_witness :
    create_area [] "X" "[]" = .written (dbInsert [] "X" (dumps (Json.arr []))) :=
  (create_area_spec [] "X" "[]").2.2 (Json.arr []) rfl rfl

/-- C3: a stored `links` string that is not valid JSON is downgraded to the
empty list by the read path: the area still appears in `load_areas_from_sf`
with `links = []`, and the (total) read path raises nothing. -/
theorem list_areas_fail_soft (t : List Row) (r : Row) (s : String) (e : PErr)
    (hr : r ∈ t) (hs : r.links = some s) (he : jsonParse s = .error e) :
    Area.mk r.name (Json.arr []) ∈ load_areas_from_sf t := by
  have h := mem_load_areas t r hr
  rw [hs] at h
  simpa [decodeLinks, he] using h

/-- C3 witness: a row whose stored links text is `not json` is listed with
empty links. -/
theorem list_areas_fail_soft_witness :
    Area.mk "A" (Json.arr []) ∈ load_areas_from_sf [⟨"A", some "not json"⟩] :=
  list_areas_fail_soft _ ⟨"A", some "not json"⟩ "not json" ⟨"Expecting value", 0⟩
    (List.mem_singleton.mpr rfl) rfl rfl

/-- C4: whatever the table contents and row order, the areas returned by
`load_areas_from_sf` are sorted by name ascending (`ORDER BY NAME`, line 27). -/
theorem load_areas_sorted (t : List Row) :
    ((load_areas_from_sf t).map Area.name).Sorted (· ≤ ·) := by
  rw [load_areas_from_sf, List.map_map, List.Sorted, List.pairwise_map]
  exact List.sorted_insertionSort rowLe t

/-- C1 counterexample: the links text consisting of an empty JSON object is
syntactically valid JSON that decodes to a non-sequence, yet `btn_upd_area`
does not fail: it performs the update (the handler has no
`isinstance(parsed_links, list)` check), rewriting the matching row's links
from `[]` to the object — a write, not a `ValidationError`. -/
theorem replace_area_accepts_object :
    replace_area [⟨"A", some "[]"⟩] "A" "A" "\x7b\x7d"
        = .written [⟨"A", some "\x7b\x7d"⟩]
      ∧ (some "\x7b\x7d" : Option String) ≠ some "[]" := by
  constructor
  · rfl
  · decide

/-- C1 amended: `replace_area` fails with the `ValidationError` of line 193
and performs no write exactly for syntactically invalid links JSON; unlike
`create_area`, links text that is valid JSON decoding to any value — sequence
or not — is accepted and the update is performed with it. -/
theorem replace_area_validation_amended (t : List Row) (sel nn s : String) :
    (∀ e, jsonParse s = .error e →
        replace_area t sel nn s = .validationError (jsonDecodeErrMsg s e))
    ∧ (∀ j, jsonParse s = .ok j →
        replace_area t sel nn s = .written (dbUpdate t sel nn (dumps j))) := by
  constructor
  · intro e he
    simp [replace_area, he]
  · intro j hj
    simp [replace_area, hj]

/-- C1 amended witness: an object-typed links text is written through. -/
theorem replace_area_validation_amended_witness :
    replace_area [] "A" "B" "\x7b\x7d" = .written (dbUpdate [] "A" "B" (dumps (Json.obj []))) :=
  (replace_area_validation_amended [] "A" "B" "\x7b\x7d").2 (Json.obj []) rfl

/-- C5: for a valid name and a links text decoding to a sequence `j`,
`create_area` writes, and the fresh `load_areas_from_sf` of the new table
contains an area with exactly that name whose links decode back to `j`
(semantic equality through the `json.dumps`/`json.loads` round trip). -/
theorem create_then_list (t : List Row) (name s : String) (j : Json)
    (hp : jsonParse s = .ok j) (ha : j.isArr = true) :
    ∃ t', create_area t name s = .written t'
      ∧ Area.mk name j ∈ load_areas_from_sf t' := by
  refine ⟨dbInsert t name (dumps j), by simp [create_area, hp, ha], ?_⟩
  have h := mem_load_areas (dbInsert t name (dumps j)) ⟨name, some (dumps j)⟩
    (by simp [dbInsert])
  simpa [decodeLinks_dumps] using h

/-- C5 witness: creating `Finance` with links `[]` and listing shows it. -/
theorem create_then_list_witness :
    ∃ t', create_area [] "Finance" "[]" = .written t'
      ∧ Area.mk "Finance" (Json.arr []) ∈ load_areas_from_sf t' :=
  create_then_list [] "Finance" "[]" (Json.arr []) rfl rfl

/-- C7: when no row matches `old_name`, a validated `replace_area` raises no
error and the UPDATE affects zero rows: the table is returned unchanged, so
success alone does not witness that the update was applied. -/
theorem replace_area_missing_noop (t : List Row) (old nn s : String) (j : Json)
    (hp : jsonParse s = .ok j) (hmiss : ∀ r ∈ t, r.name ≠ old) :
    replace_area t old nn s = .written t := by
  simp only [replace_area, hp]
  congr 1
  rw [dbUpdate]
  have hpt : ∀ r ∈ t,
      (if r.name = old then (⟨nn, some (dumps j)⟩ : Row) else r) = id r :=
    fun r hr => if_neg (hmiss r hr)
  rw [List.map_congr_left hpt, List.map_id]

/-- C7 witness: updating the absent name `B` leaves the one-row table as is. -/
theorem replace_area_missing_noop_witness :
    replace_area [⟨"A", some "[]"⟩] "B" "C" "[]" = .written [⟨"A", some "[]"⟩] :=
  replace_area_missing_noop _ "B" "C" "[]" (Json.arr []) rfl (by decide)

/-- C8: `delete_area` (a total function: deleting never raises) is exactly
the removal of the rows carrying the given name: a name matching no row
leaves the table unchanged; every surviving row is an original row with a
different name; every differently-named row survives; and the survivors keep
their relative order (sublist). -/
theorem delete_area_spec (t : List Row) (n : String) :
    ((∀ r ∈ t, r.name ≠ n) → delete_area t n = t)
    ∧ (∀ r ∈ delete_area t n, r ∈ t ∧ r.name ≠ n)
    ∧ (∀ r ∈ t, r.name ≠ n → r ∈ delete_area t n)
    ∧ (delete_area t n).Sublist t := by
  refine ⟨?_, ?_, ?_, List.filter_sublist _⟩
  · intro h
    rw [delete_area]
    exact List.filter_eq_self.mpr fun r hr => by simpa using h r hr
  · intro r hr
    rw [delete_area, List.mem_filter] at hr
    exact ⟨hr.1, by simpa using hr.2⟩
  · intro r hr hn
    rw [delete_area, List.mem_filter]
    exact ⟨hr, by simpa using hn⟩

/-- C8 witness: deleting the absent `B` is a no-op; deleting the present `B`
keeps the `A` row. -/
theorem delete_area_spec_witness :
    delete_area [⟨"A", some "[]"⟩] "B" = [⟨"A", some "[]"⟩]
      ∧ Row.mk "A" (some "[]") ∈ delete_area [⟨"A", some "[]"⟩, ⟨"B", none⟩] "B" :=
  ⟨(delete_area_spec [⟨"A", some "[]"⟩] "B").1 (by decide),
    (delete_area_spec [⟨"A", some "[]"⟩, ⟨"B", none⟩] "B").2.2.1 ⟨"A", some "[]"⟩
      (by simp) (by decide)⟩

/-- C6: round-trip with frame.  For an area present in the table, replacing
its links under the same name succeeds, the fresh listing yields exactly the
new decoded links for every area carrying that name, and the set of areas
with any other name is untouched in both directions. -/
theorem replace_links_roundtrip (t : List Row) (old s : String) (j : Json)
    (hp : jsonParse s = .ok j) (hex : ∃ r ∈ t, r.name = old) :
    ∃ t', replace_area t old old s = .written t'
      ∧ Area.mk old j ∈ load_areas_from_sf t'
      ∧ (∀ b ∈ load_areas_from_sf t', b.name = old → b = Area.mk old j)
      ∧ (∀ b ∈ load_areas_from_sf t', b.name ≠ old → b ∈ load_areas_from_sf t)
      ∧ (∀ b ∈ load_areas_from_sf t, b.name ≠ old → b ∈ load_areas_from_sf t') := by
  refine ⟨dbUpdate t old old (dumps j), by simp [replace_area, hp], ?_, ?_, ?_, ?_⟩
  · obtain ⟨r, hr, hname⟩ := hex
    have hmem : (⟨old, some (dumps j)⟩ : Row) ∈ dbUpdate t old old (dumps j) := by
      rw [dbUpdate]
      have hmm := List.mem_map_of_mem
        (fun r : Row => if r.name = old then (⟨old, some (dumps j)⟩ : Row) else r) hr
      simpa [hname] using hmm
    have h := mem_load_areas _ _ hmem
    simpa [decodeLinks_dumps] using h
  · intro b hb hbn
    rw [mem_load_areas_iff] at hb
    obtain ⟨r', hr', rfl⟩ := hb
    rw [dbUpdate, List.mem_map] at hr'
    obtain ⟨r0, _hr0, hro⟩ := hr'
    by_cases h0 : r0.name = old
    · rw [if_pos h0] at hro
      subst hro
      simp [decodeLinks_dumps]
    · rw [if_neg h0] at hro
      subst hro
      exact absurd hbn h0
  · intro b hb hbn
    rw [mem_load_areas_iff] at hb
    obtain ⟨r', hr', rfl⟩ := hb
    rw [dbUpdate, List.mem_map] at hr'
    obtain ⟨r0, hr0, hro⟩ := hr'
    by_cases h0 : r0.name = old
    · rw [if_pos h0] at hro
      subst hro
      exact absurd rfl hbn
    · rw [if_neg h0] at hro
      subst hro
      exact mem_load_areas t r0 hr0
  · intro b hb hbn
    rw [mem_load_areas_iff] at hb
    obtain ⟨r0, hr0, rfl⟩ := hb
    have h0 : r0.name ≠ old := hbn
    have hmem : r0 ∈ dbUpdate t old old (dumps j) := by
      rw [dbUpdate]
      have hmm := List.mem_map_of_mem
        (fun r : Row => if r.name = old then (⟨old, some (dumps j)⟩ : Row) else r) hr0
      simpa [if_neg h0] using hmm
    exact mem_load_areas _ r0 hmem

/-- C6 witness: replacing the links of `A` by `["x"]` in a one-row table. -/
theorem replace_links_roundtrip_witness :
    ∃ t', replace_area [⟨"A", some "[]"⟩] "A" "A" "[\"x\"]" = .written t'
      ∧ Area.mk "A" (Json.arr [Json.str "x"]) ∈ load_areas_from_sf t'
      ∧ (∀ b ∈ load_areas_from_sf t', b.name = "A" → b = Area.mk "A" (Json.arr [Json.str "x"]))
      ∧ (∀ b ∈ load_areas_from_sf t', b.name ≠ "A" →
          b ∈ load_areas_from_sf [⟨"A", some "[]"⟩])
      ∧ (∀ b ∈ load_areas_from_sf [⟨"A", some "[]"⟩], b.name ≠ "A" →
          b ∈ load_areas_from_sf t') :=
  replace_links_roundtrip [⟨"A", some "[]"⟩] "A" "[\"x\"]" (Json.arr [Json.str "x"]) rfl
    ⟨⟨"A", some "[]"⟩, by simp, rfl⟩

lemma pyEqStr_iff (v : Json) (s : String) : pyEqStr v s = true ↔ v = .str s := by
  cases v <;> simp [pyEqStr]

lemma delProjLinks_spec (sel : String) : ∀ ls : List Json,
    (∀ l ∈ ls, (getField l "name").isSome = true) →
    ∃ updated, delProjLinks sel ls = .ok updated
      ∧ updated.Sublist ls
      ∧ (∀ l ∈ updated, getField l "name" ≠ some (Json.str sel))
      ∧ (∀ l ∈ ls, getField l "name" ≠ some (Json.str sel) → l ∈ updated)
  | [], _ => ⟨[], rfl, List.Sublist.refl _, by simp, by simp⟩
  | l :: ls, hall => by
    obtain ⟨v, hv⟩ := Option.isSome_iff_exists.mp (hall l (List.mem_cons_self ..))
    obtain ⟨tail, htail, hsub, hnone, hcomp⟩ :=
      delProjLinks_spec sel ls (fun x hx => hall x (List.mem_cons_of_mem _ hx))
    by_cases hpe : pyEqStr v sel = true
    · refine ⟨tail, ?_, hsub.cons l, hnone, ?_⟩
      · simp [delProjLinks, hv, htail, hpe]
      · intro x hx hxn
        rcases List.mem_cons.mp hx with rfl | hx2
        · exact absurd (by rw [hv, (pyEqStr_iff v sel).mp hpe]) hxn
        · exact hcomp x hx2 hxn
    · refine ⟨l :: tail, ?_, hsub.cons₂ l, ?_, ?_⟩
      · simp [delProjLinks, hv, htail, hpe]
      · intro x hx
        rcases List.mem_cons.mp hx with rfl | hx2
        · rw [hv]
          intro hcon
          apply hpe
          rw [pyEqStr_iff]
          exact Option.some.inj hcon
        · exact hnone x hx2
      · intro x hx hxn
        rcases List.mem_cons.mp hx with rfl | hx2
        · exact List.mem_cons_self ..
        · exact List.mem_cons_of_mem _ (hcomp x hx2 hxn)

/-- C9: when the selected area is found and each of its links elements is an
object carrying a `name` field, the delete-project handler writes back the
links filtered by project name: every element whose name equals the selected
project — duplicates included — is removed in the one call, every element
with a different name survives, and the survivors keep their relative order
(the written list is a sublist of the original). -/
theorem btn_del_proj_spec (t : List Row) (areas : List Area)
    (sel_area sel_proj : String) (a : Area) (ls : List Json)
    (hfind : areas.find? (fun x => x.name = sel_area) = some a)
    (hlinks : a.links = Json.arr ls)
    (hnames : ∀ l ∈ ls, (getField l "name").isSome = true) :
    ∃ updated, btn_del_proj t areas sel_area sel_proj
        = .written (dbUpdateLinks t sel_area (dumps (Json.arr updated)))
      ∧ updated.Sublist ls
      ∧ (∀ l ∈ updated, getField l "name" ≠ some (Json.str sel_proj))
      ∧ (∀ l ∈ ls, getField l "name" ≠ some (Json.str sel_proj) → l ∈ updated) := by
  obtain ⟨updated, hupd, hsub, hnone, hcomp⟩ := delProjLinks_spec sel_proj ls hnames
  refine ⟨updated, ?_, hsub, hnone, hcomp⟩
  simp [btn_del_proj, hfind, hlinks, pyIter, hupd]

/-- C9 witness: an area whose links hold two projects both named `p` and one
named `q`; deleting `p` removes both and keeps `q`. -/
theorem btn_del_proj_spec_witness :
    ∃ updated, btn_del_proj []
        [⟨"A", Json.arr [Json.obj [("name", Json.str "p")],
          Json.obj [("name", Json.str "q")], Json.obj [("name", Json.str "p")]]⟩]
        "A" "p"
        = .written (dbUpdateLinks [] "A" (dumps (Json.arr updated)))
      ∧ updated.Sublist [Json.obj [("name", Json.str "p")],
          Json.obj [("name", Json.str "q")], Json.obj [("name", Json.str "p")]]
      ∧ (∀ l ∈ updated, getField l "name" ≠ some (Json.str "p"))
      ∧ (∀ l ∈ [Json.obj [("name", Json.str "p")], Json.obj [("name", Json.str "q")],
          Json.obj [("name", Json.str "p")]],
          getField l "name" ≠ some (Json.str "p") → l ∈ updated) :=
  btn_del_proj_spec [] _ "A" "p"
    ⟨"A", Json.arr [Json.obj [("name", Json.str "p")],
      Json.obj [("name", Json.str "q")], Json.obj [("name", Json.str "p")]]⟩
    _ rfl rfl (by simp [getField])

/-- C10: the permission lookup of lines 79-85 is case-insensitive in the
principal identifier (the session username and the mapping keys are both
lowercased), and an identifier absent from the lowercased mapping defaults to
the empty allow-list, under which no area is shown (for any catalog) and the
tab list carries no management tab. -/
theorem permission_lookup_spec (u₁ u₂ u : String) (areas : List Area) :
    (pyLower u₁ = pyLower u₂ → permittedFor u₁ = permittedFor u₂)
    ∧ (pyLower u ∉ user_permissions.map Prod.fst →
        permittedFor u = .allowed []
        ∧ areas_to_show (permittedFor u) areas = []
        ∧ tab_names (permittedFor u) = ["Aplicações"]) := by
  constructor
  · intro h
    simp only [permittedFor, h]
  · intro h
    have hfind : user_permissions.find? (fun p => p.1 = pyLower u) = none := by
      rw [List.find?_eq_none]
      intro p hp
      simp only [decide_eq_true_eq]
      intro hpe
      exact h (List.mem_map.mpr ⟨p, hp, hpe⟩)
    have hperm : permittedFor u = .allowed [] := by
      rw [permittedFor, hfind]
    refine ⟨hperm, ?_, ?_⟩
    · rw [hperm]
      simp [areas_to_show]
    · rw [hperm]
      rfl

/-- C10 witness: `SPDO` and `spdo` resolve identically, and the unknown
principal `ghost` gets the empty allow-list, no areas, no management tab. -/
theorem permission_lookup_spec_witness :
    permittedFor "SPDO" = permittedFor "spdo"
      ∧ (permittedFor "ghost" = .allowed []
        ∧ areas_to_show (permittedFor "ghost") [] = []
        ∧ tab_names (permittedFor "ghost") = ["Aplicações"]) :=
  ⟨(permission_lookup_spec "SPDO" "spdo" "x" []).1 (by decide),
    (permission_lookup_spec "a" "b" "ghost" []).2 (by decide)⟩
